import Mathlib

/-!
Shallow embedding of the model resource manager of the nataili repository
(file nataili/model_manager/base.py, class BaseModelManager), together with
theorems settling the specification claims about it.

Modelling conventions:
* The on-disk cache is a finite association list `FS` from a cache-relative
  file path to the content of that file (a `String`).  All paths in the
  Python code are built as `self.path ++ "/" ++ relative`, with `self.path`
  a fixed cache root, so keys here are the cache-relative paths.
* The MD5 primitive of `hashlib` is an explicit parameter
  `md5 : String → String` mapping file content to its hex digest; the
  network is a parameter `net : String → String` mapping a URL to the body
  the server returns.  Both are deterministic, which is all the claims use.
* Python exceptions are modelled with `Except PyErr`; a function that
  cannot raise keeps a plain return type.
* Mutating methods take the `ManagerState` (the relevant attributes of the
  `BaseModelManager` object) and return the updated state.
* Logging calls are not modelled; directory creation, symlink creation,
  git clone, archive extraction and tree moves are recorded in an `FsAction`
  trace (their effect on later existence checks is not needed by any
  claim; file writes, downloads and file removals also update `FS`).  A
  branch of the download loop that raises reports the actions it performed
  before the exception; `download_model` itself propagates the exception
  to its caller.
-/

/-- Kinds of Python exceptions the embedded code can raise. -/
inductive PyErr where
  | keyError
  | indexError
  | attributeError
  | runtimeError
  | nameError
  | fileNotFoundError
  | fileExistsError
  | requestError
deriving DecidableEq

instance {ε α : Type} [DecidableEq ε] [DecidableEq α] : DecidableEq (Except ε α) := fun x y =>
  match x, y with
  | .ok a, .ok b =>
    if h : a = b then isTrue (by rw [h]) else isFalse (fun hh => h (Except.ok.inj hh))
  | .error a, .error b =>
    if h : a = b then isTrue (by rw [h]) else isFalse (fun hh => h (Except.error.inj hh))
  | .ok _, .error _ => isFalse (fun hh => Except.noConfusion hh)
  | .error _, .ok _ => isFalse (fun hh => Except.noConfusion hh)

/-- One entry of the `config.files` list of a model record: a cache-relative
path and an optional recorded MD5 digest (the optional `md5sum` key). -/
structure FileSpec where
  path : String
  md5sum : Option String
deriving DecidableEq

/-- One entry of the `config.download` list of a model record.  The Python
code stores these as JSON objects and dispatches on key presence, so every
field here is optional; `manual`, `git` and `unzip` are used only as
presence flags by `download_model`, hence are booleans. -/
structure DownloadEntry where
  file_url : Option String
  file_name : Option String
  file_path : Option String
  manual : Bool
  file_content : Option String
  symlink : Option String
  git : Bool
  unzip : Bool
deriving DecidableEq

/-- One model record of the catalog: the `type` field and the
`config.files` / `config.download` lists (the only parts the manager
reads).  `mtype` stands for the JSON key `type`. -/
structure ModelRecord where
  mtype : String
  files : List FileSpec
  download : List DownloadEntry
deriving DecidableEq

/-- The catalog (`self.models`): a JSON object mapping model name to
record, modelled as an insertion-ordered association list with distinct
keys (a Python dict). -/
abbrev Catalog := List (String × ModelRecord)

/-- Dict lookup `self.models.get(name)` / `name in self.models`. -/
def Catalog.find : Catalog → String → Option ModelRecord
  | [], _ => none
  | (k, v) :: rest, name => if k = name then some v else Catalog.find rest name

/-- The filesystem under the cache root: association list from
cache-relative path to file content. -/
abbrev FS := List (String × String)

/-- Content of the file at a path, `none` when the path does not exist. -/
def fsLookup : FS → String → Option String
  | [], _ => none
  | (k, v) :: rest, p => if k = p then some v else fsLookup rest p

/-- Writing a file: overwrites the entry at the path, or appends it. -/
def fsInsert : FS → String → String → FS
  | [], p, c => [(p, c)]
  | (k, v) :: rest, p, c => if k = p then (p, c) :: rest else (k, v) :: fsInsert rest p c

/-- Deleting a file (`os.remove`): drops the entry at the path. -/
def fsErase : FS → String → FS
  | [], _ => []
  | (k, v) :: rest, p => if k = p then rest else (k, v) :: fsErase rest p

/-- `os.path.join` for the two-component joins the code performs. -/
def pjoin (a b : String) : String := a ++ "/" ++ b

/-- Python `list.remove`: drops the first occurrence (callers below only
invoke it after a membership test, so the `ValueError` case cannot arise). -/
def list_remove : List String → String → List String
  | [], _ => []
  | h :: t, x => if h = x then t else h :: list_remove t x

/-- The attributes of `BaseModelManager` the claims concern.  The
constructor never assigns `tainted_models`, so that attribute is modelled
as an `Option`: `none` means the attribute is absent and reading it raises
`AttributeError`. -/
structure ManagerState where
  models : Catalog
  available_models : List String
  loaded_models : List String
  tainted_models : Option (List String)
  download_reference : Bool
deriving DecidableEq

/-- `BaseModelManager.__init__` (base.py lines 44-57), restricted to the
attributes modelled here: empty catalog, empty available and loaded
collections, and no `tainted_models` attribute.  The cuda fields the
constructor also assigns are covered by `get_cuda_devices` below. -/
def construct (dlref : Bool) : ManagerState :=
  { models := [], available_models := [], loaded_models := [],
    tainted_models := none, download_reference := dlref }

/-- `check_file_available` (lines 210-217): `os.path.exists` of the path
under the cache root. -/
def check_file_available (fs : FS) (file_path : String) : Bool :=
  (fsLookup fs file_path).isSome

/-- `check_available` (lines 219-229): flag loop over the files list,
clearing the flag on any missing path. -/
def check_available (fs : FS) (files : List FileSpec) : Bool :=
  files.foldl (fun available f => if !(check_file_available fs f.path) then false else available) true

/-- `validate_file` (lines 190-208): when the record carries an `md5sum`,
open the file (raising if it is absent), hash its content and compare with
the recorded digest; with no recorded digest the file is valid. -/
def validate_file (md5 : String → String) (fs : FS) (fd : FileSpec) : Except PyErr Bool :=
  match fd.md5sum with
  | none => .ok true
  | some expected =>
    match fsLookup fs fd.path with
    | none => .error .fileNotFoundError
    | some content => .ok (expected = md5 content)

/-- The loop body of `validate_model` (lines 182-188) over a files list:
return false on the first missing path; unless `skip_checksum`, return
false on the first digest mismatch (exceptions from `validate_file`
propagate, though they cannot arise after the existence check). -/
def validate_files (md5 : String → String) (fs : FS) (skip_checksum : Bool) :
    List FileSpec → Except PyErr Bool
  | [] => .ok true
  | fd :: rest =>
    if !(check_file_available fs fd.path) then .ok false
    else if skip_checksum then validate_files md5 fs skip_checksum rest
    else
      match validate_file md5 fs fd with
      | .error e => .error e
      | .ok false => .ok false
      | .ok true => validate_files md5 fs skip_checksum rest

/-- `validate_model` (lines 175-188): `self.models[model_name]` raises
`KeyError` for an unknown name; otherwise run the per-file loop. -/
def validate_model (md5 : String → String) (fs : FS) (models : Catalog)
    (name : String) (skip_checksum : Bool) : Except PyErr Bool :=
  match Catalog.find models name with
  | none => .error .keyError
  | some r => validate_files md5 fs skip_checksum r.files

/-- `check_model_available` (lines 350-358): false for a name outside the
catalog, else existence of every file path (digests are not consulted). -/
def check_model_available (fs : FS) (models : Catalog) (name : String) : Bool :=
  match Catalog.find models name with
  | none => false
  | some r => check_available fs r.files

/-- `download_model_reference` (lines 70-81): try the remote fetch plus
JSON parse (the `remote` argument is the result of that whole attempt); on
any exception fall back to reading the packaged local catalog (the
`localdb` argument, whose own failure propagates). -/
def download_model_reference (remote localdb : Except PyErr Catalog) : Except PyErr Catalog :=
  match remote with
  | .ok c => .ok c
  | .error _ => localdb

/-- `init` (lines 59-68): load the catalog (remote-with-fallback when
`download_reference`, else the packaged local file), then recompute
`available_models` as the catalog names passing `check_model_available`. -/
def init (remote localdb : Except PyErr Catalog) (fs : FS) (st : ManagerState) :
    Except PyErr ManagerState :=
  match (if st.download_reference then download_model_reference remote localdb else localdb) with
  | .error e => .error e
  | .ok models =>
    .ok { st with
            models := models
            available_models :=
              (models.map fun kv => kv.1).filter fun m => check_model_available fs models m }

/-- `taint_model` (lines 165-169): when the name is available, remove it
from `available_models` and then append it to `self.tainted_models`; the
attribute read raises `AttributeError` when the constructor never assigned
it (after `available_models` was already mutated).  For a name not in
`available_models` the method does nothing. -/
def taint_model (st : ManagerState) (name : String) : ManagerState × Except PyErr Unit :=
  if name ∈ st.available_models then
    let st1 := { st with available_models := list_remove st.available_models name }
    match st.tainted_models with
    | none => (st1, .error .attributeError)
    | some ts => ({ st1 with tainted_models := some (ts ++ [name]) }, .ok ())
  else (st, .ok ())

/-- `taint_models` (lines 171-173): taint each name in order; an exception
aborts the remaining iterations. -/
def taint_models (st : ManagerState) : List String → ManagerState × Except PyErr Unit
  | [] => (st, .ok ())
  | n :: rest =>
    match taint_model st n with
    | (st1, .ok _) => taint_models st1 rest
    | (st1, .error e) => (st1, .error e)

/-- `unload_model` (lines 147-155): delete the entry when loaded. -/
def unload_model (st : ManagerState) (name : String) : ManagerState × Bool :=
  if name ∈ st.loaded_models then
    ({ st with loaded_models := list_remove st.loaded_models name }, true)
  else (st, false)

/-- `unload_all_models` (lines 157-163): `for model in self.loaded_models:
del self.loaded_models[model]`.  CPython dict iterators compare the dict
size against the size recorded when iteration began on every `next` call
and raise `RuntimeError` when it changed.  With an empty dict the loop
body never runs and the method returns `True`; with a non-empty dict the
first `next` yields the first key, the body deletes it, and the second
`next` raises `RuntimeError`, leaving the remaining keys in place. -/
def unload_all_models (st : ManagerState) : ManagerState × Except PyErr Bool :=
  match st.loaded_models with
  | [] => (st, .ok true)
  | _ :: rest => ({ st with loaded_models := rest }, .error .runtimeError)

/-- Cuda device info built by `get_cuda_devices`: enumeration id, display
name, and capability score `sm` = major * 10 + minor. -/
structure CudaDevice where
  id : Nat
  name : String
  sm : Nat
deriving DecidableEq

/-- Raw device data the torch API reports per device index: display name,
capability major, capability minor. -/
abbrev RawDevice := String × Nat × Nat

/-- The `cuda_arch` list built by the enumeration loop of
`get_cuda_devices` (lines 371-379). -/
def cuda_arch_of (devs : List RawDevice) : List CudaDevice :=
  devs.enum.map fun p => { id := p.1, name := p.2.1, sm := p.2.2.1 * 10 + p.2.2.2 }

/-- Descending comparison on the capability score, the key order of
`sorted(cuda_arch, key=..., reverse=True)`. -/
def smDesc (a b : CudaDevice) : Prop := b.sm ≤ a.sm

instance : DecidableRel smDesc := fun a b => Nat.decLe b.sm a.sm

instance : IsTotal CudaDevice smDesc := ⟨fun a b => Nat.le_total b.sm a.sm⟩

instance : IsTrans CudaDevice smDesc :=
  ⟨fun _ _ _ h1 h2 => Nat.le_trans h2 h1⟩

/-- `get_cuda_devices` (lines 360-384).  Python `sorted` with
`reverse=True` is the stable descending sort by the key, which insertion
sort on `smDesc` computes.  `cuda_arch[0]` on an empty list would raise
`IndexError` (unreachable for a real torch runtime, where availability
implies a positive device count).  When cuda is unavailable the method
returns the pair `(None, None)`. -/
def get_cuda_devices (cuda_available : Bool) (devs : List RawDevice) :
    Except PyErr (Option (List CudaDevice) × Option (List CudaDevice)) :=
  if cuda_available then
    match List.insertionSort smDesc (cuda_arch_of devs) with
    | [] => .error .indexError
    | h :: t => .ok (some (h :: t), some ((h :: t).filter fun d => d.sm == h.sm))
  else .ok (none, none)

/-- Network and filesystem side effects of `download_model`, in program
order.  Logging and the blocking `input` prompt of the manual branch do
not mutate anything; the prompt is recorded as `waitForUserInput`.  Paths
in actions are cache-relative keys, except that the `unzip` branch passes
an already root-prefixed string where a relative one is expected, and the
actions record exactly the strings the code uses. -/
inductive FsAction where
  | waitForUserInput
  | makedirs (dir : String)
  | writeFile (path : String) (content : String)
  | makeSymlink (target : String) (path : String)
  | gitClone (url : String) (dir : String)
  | downloadFile (url : String) (path : String)
  | extractZip (zipPath : String) (dir : String)
  | moveTree (src : String) (dest : String)
  | removeFile (path : String)
  | removeTree (dir : String)
deriving DecidableEq

/-- The local variables `download_url`, `download_name`, `download_path`
of the `download_model` loop.  Python only rebinds them when the matching
key is present on the current entry, so a value can carry over from an
earlier iteration; `none` means the variable was never bound, and reading
it raises `NameError`. -/
structure LoopVars where
  download_url : Option String
  download_name : Option String
  download_path : Option String
deriving DecidableEq

/-- Read a loop variable, raising `NameError` when it was never bound. -/
def need (v : Option String) : Except PyErr String :=
  match v with
  | some s => .ok s
  | none => .error .nameError

/-- Characters strictly before the last slash of the list, `none` when no
slash occurs. -/
def dirnameAux : List Char → Option (List Char)
  | [] => none
  | c :: cs =>
    match dirnameAux cs with
    | some tail => some (c :: tail)
    | none => if c = '/' then some [] else none

/-- String-level `os.path.dirname`: everything before the last slash,
empty when the path has no slash.  For a cache-relative key `k`,
`dirname k` is the cache-relative key of the directory
`os.path.dirname(self.path + "/" + k)`. -/
def dirname (p : String) : String :=
  String.mk ((dirnameAux p.data).getD [])

/-- `download_file` (lines 231-254): computes
`full_path = self.path + "/" + file_path`, creates the parent directory of
`full_path`, and streams the body at the URL into `full_path`.  In
cache-relative terms it creates the directory `dirname file_path` and
writes at the key `file_path` — so a caller that passes an already
root-prefixed absolute string as `file_path` (the `unzip` branch does)
ends up writing under a doubled root prefix. -/
def download_file (net : String → String) (fs : FS) (url : String) (file_path : String) :
    FS × List FsAction :=
  (fsInsert fs file_path (net url),
   [FsAction.makedirs (dirname file_path), FsAction.downloadFile url file_path])

/-- One iteration of the `download_model` loop (lines 278-332) at index
`i`, with `root` the cache root `self.path`: resolve the destination
path, rebind the loop variables, then dispatch on the key-presence flags
in source order (`manual`, `file_content`, `symlink`, `git`, `unzip`,
plain download).  Returns the filesystem, the actions performed — also
when the branch then raises — and either the loop variables for the next
iteration or the exception raised.

Branch fidelity notes, traced from the source:
* `symlink`: `os.makedirs` runs first; `os.symlink` then raises
  `FileExistsError` when the destination already exists (the model
  checks the destination key; the link dirent created on success is not
  itself entered into `FS`, whose entries stand for regular files).
* `unzip`: `zip_path` (line 316) is already `self.path`-prefixed, but
  `download_file` prefixes `self.path` again, so the archive is written
  under a doubled root (modelled as the key `pjoin root (dn ++ ".zip")`)
  while `zipfile.ZipFile(zip_path)` (line 321) opens the singly prefixed
  path (key `dn ++ ".zip"`), which the download never wrote: with no
  pre-existing file at that key the branch raises `FileNotFoundError`
  there.  If a file does pre-exist at that key it is treated as a
  readable archive (a corrupt one would raise `BadZipFile`, not
  distinguished here), and the branch still raises `FileNotFoundError`
  at `shutil.rmtree(temp_path)` (line 328), because `shutil.move`
  (line 324) has already moved `temp_path` away.  Either way the branch
  never completes normally.
* The uuid4 temporary directory is modelled as a name derived from the
  loop index. -/
def download_step (root : String) (net : String → String) (files : List FileSpec)
    (e : DownloadEntry) (i : Nat) (fs : FS) (v : LoopVars) :
    FS × List FsAction × Except PyErr LoopVars :=
  let file_path? : Except PyErr String :=
    match e.file_path with
    | some dp =>
      match e.file_name with
      | some dn => .ok (pjoin dp dn)
      | none => .error .keyError
    | none =>
      match files.get? i with
      | some f => .ok f.path
      | none => .error .indexError
  match file_path? with
  | .error err => (fs, [], .error err)
  | .ok file_path =>
    let v2 : LoopVars :=
      { download_url := e.file_url <|> v.download_url
        download_name := e.file_name <|> v.download_name
        download_path := e.file_path <|> v.download_path }
    if e.manual then
      match need v2.download_url, need v2.download_path, need v2.download_name with
      | .ok _, .ok _, .ok _ => (fs, [FsAction.waitForUserInput], .ok v2)
      | _, _, _ => (fs, [], .error .nameError)
    else
      match e.file_content with
      | some c =>
        match need v2.download_path with
        | .error err => (fs, [], .error err)
        | .ok dp =>
          match need v2.download_name with
          | .error err => (fs, [FsAction.makedirs dp], .error err)
          | .ok dn =>
            (fsInsert fs (pjoin dp dn) c,
             [FsAction.makedirs dp, FsAction.writeFile (pjoin dp dn) c], .ok v2)
      | none =>
        match e.symlink with
        | some t =>
          match need v2.download_path with
          | .error err => (fs, [], .error err)
          | .ok dp =>
            match need v2.download_name with
            | .error err => (fs, [FsAction.makedirs dp], .error err)
            | .ok dn =>
              if check_file_available fs (pjoin dp dn) then
                (fs, [FsAction.makedirs dp], .error .fileExistsError)
              else
                (fs, [FsAction.makedirs dp, FsAction.makeSymlink t (pjoin dp dn)], .ok v2)
        | none =>
          if e.git then
            match need v2.download_url with
            | .error err => (fs, [], .error err)
            | .ok u =>
              (fs, [FsAction.makedirs file_path, FsAction.gitClone u file_path], .ok v2)
          else if e.unzip then
            match need v2.download_name with
            | .error err => (fs, [], .error err)
            | .ok dn =>
              let zip_path := pjoin root (dn ++ ".zip")
              let temp := "uuid4-" ++ toString i
              match need v2.download_url with
              | .error err => (fs, [FsAction.makedirs temp], .error err)
              | .ok u =>
                match download_file net fs u zip_path with
                | (fs1, dlActs) =>
                  match fsLookup fs1 (dn ++ ".zip") with
                  | none =>
                    (fs1, FsAction.makedirs temp :: dlActs, .error .fileNotFoundError)
                  | some _ =>
                    match need v2.download_path with
                    | .error err =>
                      (fs1, FsAction.makedirs temp :: dlActs
                              ++ [FsAction.extractZip (dn ++ ".zip") temp], .error err)
                    | .ok dp =>
                      (fsErase fs1 (dn ++ ".zip"),
                       FsAction.makedirs temp :: dlActs
                         ++ [FsAction.extractZip (dn ++ ".zip") temp,
                             FsAction.moveTree temp dp,
                             FsAction.removeFile (dn ++ ".zip")],
                       .error .fileNotFoundError)
          else
            if check_file_available fs file_path then (fs, [], .ok v2)
            else
              match need v2.download_url with
              | .error err => (fs, [], .error err)
              | .ok u =>
                match download_file net fs u file_path with
                | (fs1, dlActs) => (fs1, dlActs, .ok v2)

/-- The whole `for i in range(len(download))` loop of `download_model`,
threading the filesystem and loop variables and concatenating the action
traces; an exception aborts the remaining iterations, keeping the
filesystem and actions up to that point. -/
def download_loop (root : String) (net : String → String) (files : List FileSpec) :
    List DownloadEntry → Nat → FS → LoopVars → FS × List FsAction × Except PyErr Unit
  | [], _, fs, _ => (fs, [], .ok ())
  | e :: rest, i, fs, v =>
    match download_step root net files e i fs v with
    | (fs1, acts, .error err) => (fs1, acts, .error err)
    | (fs1, acts, .ok v1) =>
      match download_loop root net files rest (i + 1) fs1 v1 with
      | (fs2, acts2, res) => (fs2, acts ++ acts2, res)

/-- `download_model` (lines 256-336): short-circuit on an already
available name; otherwise look up the record (`self.models[model_name]`
raises `KeyError` for an unknown name), run the per-entry loop, validate,
and on success re-run `init` and return true.  The result carries the
final manager state, filesystem, action trace, and the returned boolean;
an exception from the loop propagates to the caller (the filesystem and
actions up to it are not retained at this boundary — no claim concerns
them). -/
def download_model (root : String) (md5 net : String → String)
    (remote localdb : Except PyErr Catalog) (st : ManagerState) (fs : FS) (name : String) :
    Except PyErr (ManagerState × FS × List FsAction × Bool) :=
  if name ∈ st.available_models then .ok (st, fs, [], true)
  else
    match Catalog.find st.models name with
    | none => .error .keyError
    | some r =>
      match download_loop root net r.files r.download 0 fs
          { download_url := none, download_name := none, download_path := none } with
      | (_, _, .error e) => .error e
      | (fs1, acts, .ok _) =>
        match validate_model md5 fs1 st.models name false with
        | .error e => .error e
        | .ok false => .ok (st, fs1, acts, false)
        | .ok true =>
          match init remote localdb fs1 st with
          | .error e => .error e
          | .ok st2 => .ok (st2, fs1, acts, true)

/-- The availability predicate exactly as the specification sentence for
claim C2 states it, written from the spec wording for comparison with the
availability the code computes: the artifact is available iff every file
path of its record exists under the cache root and, unless validation is
skipped, every file carrying a digest hashes to the recorded digest. -/
def spec_available (md5 : String → String) (fs : FS) (models : Catalog)
    (skip : Bool) (name : String) : Bool :=
  match Catalog.find models name with
  | none => false
  | some r =>
    r.files.all (fun f => check_file_available fs f.path) &&
    (skip ||
      r.files.all fun f =>
        match f.md5sum with
        | none => true
        | some d =>
          match fsLookup fs f.path with
          | none => false
          | some c => md5 c == d)

/-- C5: the constructor of the manager never initializes the
tainted-models collection, so the first `taint_model` call on a name in
the available set raises `AttributeError` when it tries to append to the
collection (after having already removed the name from
`available_models`); the collection needs to be initialized as an empty
collection at construction for the method to work. -/
theorem tainted_models_unset_at_construction_fails_first_taint :
    (construct true).tainted_models = none ∧
    taint_model { models := [], available_models := ["m"], loaded_models := [],
                  tainted_models := none, download_reference := true } "m"
      = ({ models := [], available_models := [], loaded_models := [],
           tainted_models := none, download_reference := true }, .error .attributeError) := by
  decide

/-- C10: the claim that `unload_all_models` always terminates normally
with `true` and an empty loaded registry fails on any state with a loaded
model: the method deletes dict entries while iterating the same dict, so
CPython raises `RuntimeError` after the first deletion.  With one loaded
model the call deletes it and then raises instead of returning `true`;
only on an already empty registry does it return `true`. -/
theorem unload_all_models_raises_on_nonempty_registry :
    unload_all_models { models := [], available_models := [], loaded_models := ["m"],
                        tainted_models := none, download_reference := true }
      = ({ models := [], available_models := [], loaded_models := [],
           tainted_models := none, download_reference := true }, .error .runtimeError) ∧
    unload_all_models { models := [], available_models := [], loaded_models := [],
                        tainted_models := none, download_reference := true }
      = ({ models := [], available_models := [], loaded_models := [],
           tainted_models := none, download_reference := true }, .ok true) := by
  decide

/-- C9 counterexample: with no compute devices present the device
enumeration returns the pair (None, None), not a pair of empty lists. -/
theorem get_cuda_devices_no_cuda_counterexample :
    get_cuda_devices false [] = .ok (none, none) ∧
    get_cuda_devices false [] ≠ .ok (some [], some []) := by
  decide

/-- C9 (amended): when no compute devices are present the device
enumeration returns the pair (None, None) — both components absent rather
than empty lists. -/
theorem get_cuda_devices_no_cuda (devs : List RawDevice) :
    get_cuda_devices false devs = .ok (none, none) := rfl

/-- C1: for every name already in the available set, `download_model`
returns true, leaves the manager state and filesystem unchanged, and
performs no action at all (it short-circuits before dispatching any
acquisition strategy), so repeated calls never re-fetch a satisfied
artifact. -/
theorem download_model_short_circuits_on_available (root : String) (md5 net : String → String)
    (remote localdb : Except PyErr Catalog) (st : ManagerState) (fs : FS) (name : String)
    (h : name ∈ st.available_models) :
    download_model root md5 net remote localdb st fs name = .ok (st, fs, [], true) := by
  simp [download_model, h]

/-- Witness for C1 at a concrete state with an available model. -/
theorem download_model_short_circuits_on_available_witness :
    "m" ∈ ({ models := [], available_models := ["m"], loaded_models := [],
             tainted_models := none, download_reference := true } : ManagerState).available_models ∧
    download_model "root" id id (.error .requestError) (.error .keyError)
        { models := [], available_models := ["m"], loaded_models := [],
          tainted_models := none, download_reference := true } [] "m"
      = .ok ({ models := [], available_models := ["m"], loaded_models := [],
               tainted_models := none, download_reference := true }, [], [], true) :=
  ⟨by decide,
   download_model_short_circuits_on_available "root" id id (.error .requestError) (.error .keyError)
     { models := [], available_models := ["m"], loaded_models := [],
       tainted_models := none, download_reference := true } [] "m" (by decide)⟩

/-- C6: catalog loading first attempts the remote fetch-and-parse and
returns its catalog when that succeeds; on any remote failure it returns
whatever reading the packaged local catalog yields; and an error reaches
the caller exactly when the remote attempt failed and the local read
failed as well. -/
theorem download_model_reference_remote_then_local
    (remote localdb : Except PyErr Catalog) :
    (∀ c, remote = .ok c → download_model_reference remote localdb = .ok c) ∧
    (∀ e, remote = .error e → download_model_reference remote localdb = localdb) ∧
    (∀ e, download_model_reference remote localdb = .error e →
      (∃ e2, remote = .error e2) ∧ localdb = .error e) := by
  refine ⟨?_, ?_, ?_⟩ <;> intro x h
  · rw [h]; rfl
  · rw [h]; rfl
  · cases remote with
    | ok c => exact absurd h (by simp [download_model_reference])
    | error e2 => exact ⟨⟨e2, rfl⟩, h⟩

/-- Witness for C6: each of the three cases at concrete catalogs. -/
theorem download_model_reference_remote_then_local_witness :
    download_model_reference (.ok [("m", ⟨"ckpt", [], []⟩)]) (.error .keyError)
      = .ok [("m", ⟨"ckpt", [], []⟩)] ∧
    download_model_reference (.error .requestError) (.ok [("m", ⟨"ckpt", [], []⟩)])
      = .ok [("m", ⟨"ckpt", [], []⟩)] ∧
    ((∃ e2, (.error .requestError : Except PyErr Catalog) = .error e2) ∧
      (.error .keyError : Except PyErr Catalog) = .error .keyError) :=
  ⟨(download_model_reference_remote_then_local _ _).1 _ rfl,
   (download_model_reference_remote_then_local _ _).2.1 .requestError rfl,
   (download_model_reference_remote_then_local (.error .requestError) (.error .keyError)).2.2
     .keyError rfl⟩

/-- The validation loop answers false whenever some file of the list has a
recorded digest and on-disk content hashing to a different digest. -/
theorem validate_files_mismatch (md5 : String → String) (fs : FS) (l : List FileSpec)
    (h : ∃ f ∈ l, ∃ d c, f.md5sum = some d ∧ fsLookup fs f.path = some c ∧ md5 c ≠ d) :
    validate_files md5 fs false l = .ok false := by
  induction l with
  | nil =>
    obtain ⟨f, hf, _⟩ := h
    exact absurd hf (List.not_mem_nil f)
  | cons fd rest ih =>
    obtain ⟨f, hf, d, c, hd, hc, hne⟩ := h
    rcases List.mem_cons.mp hf with heq | hmem
    · subst heq
      have hav : check_file_available fs f.path = true := by
        simp [check_file_available, hc]
      have hdec : decide (d = md5 c) = false :=
        decide_eq_false (fun hh => hne hh.symm)
      simp [validate_files, hav, validate_file, hd, hc, hdec]
    · by_cases hav : check_file_available fs fd.path
      · have hrest := ih ⟨f, hmem, d, c, hd, hc, hne⟩
        have hsome : ∃ c2, fsLookup fs fd.path = some c2 := by
          unfold check_file_available at hav
          cases hl : fsLookup fs fd.path with
          | none => rw [hl] at hav; exact absurd hav (by simp)
          | some c2 => exact ⟨c2, rfl⟩
        obtain ⟨c2, hc2⟩ := hsome
        cases hmd : fd.md5sum with
        | none => simp [validate_files, hav, validate_file, hmd, hrest]
        | some d2 =>
          by_cases heqd : d2 = md5 c2
          · simp [validate_files, hav, validate_file, hmd, hc2, heqd, hrest]
          · simp [validate_files, hav, validate_file, hmd, hc2, decide_eq_false heqd]
      · simp [validate_files, hav]

/-- When the validation loop answers true, every file of the list exists,
and every recorded digest is the hash of the on-disk content. -/
theorem validate_files_true (md5 : String → String) (fs : FS) (l : List FileSpec) :
    validate_files md5 fs false l = .ok true →
    ∀ f ∈ l, (fsLookup fs f.path).isSome ∧
      ∀ d, f.md5sum = some d → ∃ c, fsLookup fs f.path = some c ∧ md5 c = d := by
  induction l with
  | nil =>
    intro _ f hf
    exact absurd hf (List.not_mem_nil f)
  | cons fd rest ih =>
    intro h f hf
    by_cases hav : check_file_available fs fd.path
    · have hsome : ∃ c2, fsLookup fs fd.path = some c2 := by
        unfold check_file_available at hav
        cases hl : fsLookup fs fd.path with
        | none => rw [hl] at hav; exact absurd hav (by simp)
        | some c2 => exact ⟨c2, rfl⟩
      obtain ⟨c2, hc2⟩ := hsome
      cases hmd : fd.md5sum with
      | none =>
        have hrec : validate_files md5 fs false rest = .ok true := by
          rw [validate_files] at h
          simpa [hav, validate_file, hmd] using h
        rcases List.mem_cons.mp hf with heq | hmem
        · subst heq
          exact ⟨by simp [hc2], fun d hd => by rw [hmd] at hd; cases hd⟩
        · exact ih hrec f hmem
      | some d2 =>
        by_cases heqd : d2 = md5 c2
        · have hrec : validate_files md5 fs false rest = .ok true := by
            rw [validate_files] at h
            simpa [hav, validate_file, hmd, hc2, heqd] using h
          rcases List.mem_cons.mp hf with heq | hmem
          · subst heq
            refine ⟨by simp [hc2], fun d hd => ?_⟩
            rw [hmd] at hd
            cases hd
            exact ⟨c2, hc2, heqd.symm⟩
          · exact ih hrec f hmem
        · rw [validate_files] at h
          simp [hav, validate_file, hmd, hc2, decide_eq_false heqd] at h
    · rw [validate_files] at h
      simp [hav] at h

/-- C3: for a model present in the catalog, `validate_model` with checksum
validation enabled returns false whenever any single file with a recorded
digest hashes to a different value, and returns true only when every file
with a digest matches it and every file (with or without a digest)
exists. -/
theorem validate_model_checksum_gating (md5 : String → String) (fs : FS) (models : Catalog)
    (name : String) (r : ModelRecord) (h : Catalog.find models name = some r) :
    ((∃ f ∈ r.files, ∃ d c, f.md5sum = some d ∧ fsLookup fs f.path = some c ∧ md5 c ≠ d) →
      validate_model md5 fs models name false = .ok false) ∧
    (validate_model md5 fs models name false = .ok true →
      ∀ f ∈ r.files, (fsLookup fs f.path).isSome ∧
        ∀ d, f.md5sum = some d → ∃ c, fsLookup fs f.path = some c ∧ md5 c = d) := by
  constructor
  · intro hmis
    unfold validate_model
    rw [h]
    exact validate_files_mismatch md5 fs r.files hmis
  · intro hval
    unfold validate_model at hval
    rw [h] at hval
    exact validate_files_true md5 fs r.files hval

/-- Witness for C3 at a concrete catalog: one model with a digest-carrying
file and a digest-free file, content hashed by the identity digest. -/
theorem validate_model_checksum_gating_witness :
    Catalog.find [("m", ⟨"ckpt", [⟨"a", some "aa"⟩, ⟨"b", none⟩], []⟩)] "m"
      = some ⟨"ckpt", [⟨"a", some "aa"⟩, ⟨"b", none⟩], []⟩ ∧
    (((∃ f ∈ ([⟨"a", some "aa"⟩, ⟨"b", none⟩] : List FileSpec), ∃ d c,
        f.md5sum = some d ∧ fsLookup [("a", "aa"), ("b", "zz")] f.path = some c ∧ id c ≠ d) →
      validate_model id [("a", "aa"), ("b", "zz")]
        [("m", ⟨"ckpt", [⟨"a", some "aa"⟩, ⟨"b", none⟩], []⟩)] "m" false = .ok false) ∧
    (validate_model id [("a", "aa"), ("b", "zz")]
        [("m", ⟨"ckpt", [⟨"a", some "aa"⟩, ⟨"b", none⟩], []⟩)] "m" false = .ok true →
      ∀ f ∈ ([⟨"a", some "aa"⟩, ⟨"b", none⟩] : List FileSpec),
        (fsLookup [("a", "aa"), ("b", "zz")] f.path).isSome ∧
        ∀ d, f.md5sum = some d →
          ∃ c, fsLookup [("a", "aa"), ("b", "zz")] f.path = some c ∧ id c = d)) :=
  ⟨by decide,
   validate_model_checksum_gating id [("a", "aa"), ("b", "zz")]
     [("m", ⟨"ckpt", [⟨"a", some "aa"⟩, ⟨"b", none⟩], []⟩)] "m"
     ⟨"ckpt", [⟨"a", some "aa"⟩, ⟨"b", none⟩], []⟩ (by decide)⟩

/-- Membership in the result of a first-occurrence removal implies
membership in the original list. -/
theorem mem_of_mem_list_remove {l : List String} {a x : String}
    (h : x ∈ list_remove l a) : x ∈ l := by
  induction l with
  | nil => exact absurd h (List.not_mem_nil x)
  | cons hd t ih =>
    rw [list_remove] at h
    by_cases he : hd = a
    · rw [if_pos he] at h
      exact List.mem_cons_of_mem hd h
    · rw [if_neg he] at h
      rcases List.mem_cons.mp h with h1 | h2
      · exact h1 ▸ List.mem_cons_self hd t
      · exact List.mem_cons_of_mem hd (ih h2)

/-- On a duplicate-free list, removing the first occurrence of an element
removes every occurrence of it. -/
theorem not_mem_list_remove_self {l : List String} (hn : l.Nodup) (a : String) :
    a ∉ list_remove l a := by
  induction l with
  | nil => simp [list_remove]
  | cons hd t ih =>
    rw [list_remove]
    by_cases he : hd = a
    · rw [if_pos he]
      subst he
      exact (List.nodup_cons.mp hn).1
    · rw [if_neg he]
      intro hmem
      rcases List.mem_cons.mp hmem with h1 | h2
      · exact he h1.symm
      · exact ih (List.nodup_cons.mp hn).2 h2

/-- C4 (amended): on a manager state whose tainted collection has been
initialized, `taint_model` on an available name removes its first
occurrence from the available list and appends it to the tainted list,
and on a non-available name is a complete no-op (in particular the name
is not added to the tainted list); `taint_model` itself preserves
disjointness of the tainted and available collections whenever the
available list is duplicate-free (the catalog-reloading `init` step does
not preserve that disjointness, as the counterexample shows). -/
theorem taint_model_amended (st : ManagerState) (ts : List String) (name : String)
    (h : st.tainted_models = some ts) :
    (name ∈ st.available_models →
      taint_model st name
        = ({ st with
               available_models := list_remove st.available_models name
               tainted_models := some (ts ++ [name]) }, .ok ())) ∧
    (name ∉ st.available_models → taint_model st name = (st, .ok ())) ∧
    (st.available_models.Nodup → (∀ x ∈ ts, x ∉ st.available_models) →
      ∀ x ∈ ((taint_model st name).1.tainted_models.getD []),
        x ∉ (taint_model st name).1.available_models) := by
  refine ⟨?_, ?_, ?_⟩
  · intro hmem
    simp [taint_model, hmem, h]
  · intro hmem
    simp [taint_model, hmem]
  · intro hnd hdisj x hx
    by_cases hmem : name ∈ st.available_models
    · simp only [taint_model, if_pos hmem, h] at hx ⊢
      have hx2 : x ∈ ts ∨ x = name := by simpa using hx
      rcases hx2 with hts | hone
      · intro hcon
        exact hdisj x hts (mem_of_mem_list_remove (by simpa using hcon))
      · subst hone
        intro hcon
        exact not_mem_list_remove_self hnd x (by simpa using hcon)
    · simp only [taint_model, if_neg hmem, h] at hx ⊢
      exact hdisj x (by simpa using hx)

/-- C4 counterexample: on a fresh manager the taint call on an available
name raises instead of adding the name to the tainted collection; on an
initialized manager a taint call on a non-available name is a complete
no-op and in particular does not add the name to the tainted collection;
and `init` re-admits a tainted model whose files are on disk into
`available_models` while leaving it tainted, so not every operation
preserves disjointness of the two collections. -/
theorem taint_model_counterexample :
    (taint_model { models := [], available_models := ["m"], loaded_models := [],
                   tainted_models := none, download_reference := true } "m").2
      = .error .attributeError ∧
    "m" ∉ ((taint_model { models := [], available_models := ["m"], loaded_models := [],
                          tainted_models := none, download_reference := true } "m").1.tainted_models.getD []) ∧
    taint_model { models := [], available_models := [], loaded_models := [],
                  tainted_models := some [], download_reference := true } "x"
      = ({ models := [], available_models := [], loaded_models := [],
           tainted_models := some [], download_reference := true }, .ok ()) ∧
    "x" ∉ ((taint_model { models := [], available_models := [], loaded_models := [],
                          tainted_models := some [], download_reference := true } "x").1.tainted_models.getD []) ∧
    init (.error .requestError) (.ok [("m", ⟨"ckpt", [⟨"a", none⟩], []⟩)]) [("a", "x")]
        { models := [], available_models := [], loaded_models := [],
          tainted_models := some ["m"], download_reference := false }
      = .ok { models := [("m", ⟨"ckpt", [⟨"a", none⟩], []⟩)], available_models := ["m"],
              loaded_models := [], tainted_models := some ["m"], download_reference := false } := by
  decide

/-- Witness for C4 (amended) at a concrete state with an initialized
tainted collection and one available model. -/
theorem taint_model_amended_witness :
    ({ models := [], available_models := ["m", "n"], loaded_models := [],
       tainted_models := some ["t"], download_reference := true } : ManagerState).tainted_models
      = some ["t"] ∧
    (("m" ∈ ({ models := [], available_models := ["m", "n"], loaded_models := [],
               tainted_models := some ["t"], download_reference := true } : ManagerState).available_models →
      taint_model { models := [], available_models := ["m", "n"], loaded_models := [],
                    tainted_models := some ["t"], download_reference := true } "m"
        = ({ ({ models := [], available_models := ["m", "n"], loaded_models := [],
                tainted_models := some ["t"], download_reference := true } : ManagerState) with
               available_models := list_remove ["m", "n"] "m"
               tainted_models := some (["t"] ++ ["m"]) }, .ok ())) ∧
    ("m" ∉ ({ models := [], available_models := ["m", "n"], loaded_models := [],
              tainted_models := some ["t"], download_reference := true } : ManagerState).available_models →
      taint_model { models := [], available_models := ["m", "n"], loaded_models := [],
                    tainted_models := some ["t"], download_reference := true } "m"
        = ({ models := [], available_models := ["m", "n"], loaded_models := [],
             tainted_models := some ["t"], download_reference := true }, .ok ())) ∧
    ((["m", "n"] : List String).Nodup →
      (∀ x ∈ (["t"] : List String), x ∉ (["m", "n"] : List String)) →
      ∀ x ∈ ((taint_model { models := [], available_models := ["m", "n"], loaded_models := [],
                            tainted_models := some ["t"], download_reference := true } "m").1.tainted_models.getD []),
        x ∉ (taint_model { models := [], available_models := ["m", "n"], loaded_models := [],
                           tainted_models := some ["t"], download_reference := true } "m").1.available_models)) :=
  ⟨rfl,
   taint_model_amended
     { models := [], available_models := ["m", "n"], loaded_models := [],
       tainted_models := some ["t"], download_reference := true } ["t"] "m" rfl⟩

/-- The flag-carrying fold of `check_available` computes the conjunction
of the existence checks. -/
theorem check_available_foldl (fs : FS) (files : List FileSpec) (b : Bool) :
    files.foldl (fun available f => check_file_available fs f.path && available) b
      = (b && files.all fun f => check_file_available fs f.path) := by
  induction files generalizing b with
  | nil => simp
  | cons fd rest ih =>
    rw [List.foldl_cons, List.all_cons, ih]
    cases b <;> cases hc : check_file_available fs fd.path <;> simp

/-- `check_available` is the conjunction of per-file existence. -/
theorem check_available_eq_all (fs : FS) (files : List FileSpec) :
    check_available fs files = files.all fun f => check_file_available fs f.path := by
  unfold check_available
  have hf : (fun (available : Bool) (f : FileSpec) =>
        if !(check_file_available fs f.path) then false else available)
      = fun (available : Bool) (f : FileSpec) => check_file_available fs f.path && available := by
    funext a f
    by_cases hc : check_file_available fs f.path <;> simp [hc]
  rw [hf, check_available_foldl]
  simp

/-- `check_model_available` on a name whose lookup succeeds is the
existence check over the files of the record found. -/
theorem check_model_available_eq (fs : FS) (models : Catalog) (name : String)
    (r : ModelRecord) (hr : Catalog.find models name = some r) :
    check_model_available fs models name = check_available fs r.files := by
  unfold check_model_available
  rw [hr]

/-- A successful catalog lookup means the name is among the keys. -/
theorem catalog_find_mem_keys {models : Catalog} {name : String} {r : ModelRecord}
    (h : Catalog.find models name = some r) : name ∈ models.map fun kv => kv.1 := by
  induction models with
  | nil => exact absurd h (by simp [Catalog.find])
  | cons kv rest ih =>
    rw [Catalog.find] at h
    by_cases he : kv.1 = name
    · simp [he]
    · rw [if_neg he] at h
      exact List.mem_cons_of_mem _ (ih h)

/-- A name among the keys has a successful catalog lookup. -/
theorem catalog_find_of_mem_keys {models : Catalog} {name : String}
    (h : name ∈ models.map fun kv => kv.1) : ∃ r, Catalog.find models name = some r := by
  induction models with
  | nil => exact absurd h (by simp)
  | cons kv rest ih =>
    by_cases he : kv.1 = name
    · exact ⟨kv.2, by rw [Catalog.find, if_pos he]⟩
    · rw [List.map_cons, List.mem_cons] at h
      rcases h with h1 | h2
      · exact absurd h1.symm he
      · obtain ⟨r, hr⟩ := ih h2
        exact ⟨r, by rw [Catalog.find, if_neg he]; exact hr⟩

/-- C2 (amended): after a successful `init`, a name is in
`available_models` exactly when it is a key of the loaded catalog and
every file path of its record exists under the cache root — recorded
digests are not consulted at this step (the counterexample below shows
the original digest clause fails on the code). -/
theorem init_available_iff_all_files_exist (remote localdb : Except PyErr Catalog)
    (fs : FS) (st st2 : ManagerState) (name : String)
    (h : init remote localdb fs st = .ok st2) :
    name ∈ st2.available_models ↔
      ∃ r, Catalog.find st2.models name = some r ∧
        ∀ f ∈ r.files, check_file_available fs f.path := by
  revert h
  unfold init
  cases hcat : (if st.download_reference then download_model_reference remote localdb else localdb) with
  | error e => intro h; exact absurd h (by simp)
  | ok c =>
    intro h
    have h2 : st2 = { st with
                        models := c
                        available_models :=
                          (c.map fun kv => kv.1).filter fun m => check_model_available fs c m } :=
      (Except.ok.inj h).symm
    subst h2
    simp only []
    constructor
    · intro hm
      obtain ⟨hk, hcma⟩ := List.mem_filter.mp hm
      obtain ⟨r, hr⟩ := catalog_find_of_mem_keys hk
      refine ⟨r, hr, ?_⟩
      have hcma2 : check_available fs r.files = true := by
        rw [← check_model_available_eq fs c name r hr]
        exact hcma
      rw [check_available_eq_all] at hcma2
      exact fun f hf => List.all_eq_true.mp hcma2 f hf
    · rintro ⟨r, hr, hall⟩
      apply List.mem_filter.mpr
      refine ⟨catalog_find_mem_keys hr, ?_⟩
      show check_model_available fs c name = true
      rw [check_model_available_eq fs c name r hr, check_available_eq_all]
      exact List.all_eq_true.mpr fun f hf => hall f hf

/-- C2 counterexample: a catalog model whose only file exists on disk but
whose content hashes to a digest different from the recorded one is
nevertheless placed in `available_models` by `init`, while the predicate
the claim states (existence and digest match) is false for it — the
digest half of the claimed equivalence does not hold on the code. -/
theorem init_available_digest_counterexample :
    init (.error .requestError) (.ok [("m", ⟨"ckpt", [⟨"a", some "zz"⟩], []⟩)]) [("a", "xx")]
        { models := [], available_models := [], loaded_models := [],
          tainted_models := none, download_reference := false }
      = .ok { models := [("m", ⟨"ckpt", [⟨"a", some "zz"⟩], []⟩)], available_models := ["m"],
              loaded_models := [], tainted_models := none, download_reference := false } ∧
    spec_available id [("a", "xx")] [("m", ⟨"ckpt", [⟨"a", some "zz"⟩], []⟩)] false "m" = false := by
  decide

/-- Witness for C2 (amended) at a concrete catalog and filesystem. -/
theorem init_available_iff_all_files_exist_witness :
    init (.error .requestError) (.ok [("m", ⟨"ckpt", [⟨"a", some "zz"⟩], []⟩)]) [("a", "xx")]
        { models := [], available_models := [], loaded_models := [],
          tainted_models := none, download_reference := true }
      = .ok { models := [("m", ⟨"ckpt", [⟨"a", some "zz"⟩], []⟩)], available_models := ["m"],
              loaded_models := [], tainted_models := none, download_reference := true } ∧
    ("m" ∈ ({ models := [("m", ⟨"ckpt", [⟨"a", some "zz"⟩], []⟩)], available_models := ["m"],
              loaded_models := [], tainted_models := none,
              download_reference := true } : ManagerState).available_models ↔
      ∃ r, Catalog.find ({ models := [("m", ⟨"ckpt", [⟨"a", some "zz"⟩], []⟩)],
                           available_models := ["m"], loaded_models := [], tainted_models := none,
                           download_reference := true } : ManagerState).models "m" = some r ∧
        ∀ f ∈ r.files, check_file_available [("a", "xx")] f.path) :=
  ⟨by decide,
   init_available_iff_all_files_exist (.error .requestError)
     (.ok [("m", ⟨"ckpt", [⟨"a", some "zz"⟩], []⟩)]) [("a", "xx")]
     { models := [], available_models := [], loaded_models := [],
       tainted_models := none, download_reference := true }
     { models := [("m", ⟨"ckpt", [⟨"a", some "zz"⟩], []⟩)], available_models := ["m"],
       loaded_models := [], tainted_models := none, download_reference := true } "m" (by decide)⟩

/-- C7: within the per-file loop of `download_model`, the literal-content,
symlink, git-clone and archive-extract branches dispatch their actions for
every filesystem state, without any pre-existence check of the
destination, whereas the default plain-download branch downloads exactly
when the resolved destination path does not already exist.  Acting
unconditionally means the symlink branch raises `FileExistsError` instead
of skipping when its destination already exists, and the archive-extract
branch downloads the archive for every filesystem state and then always
raises `FileNotFoundError` (at the archive open when nothing sits at the
singly prefixed path, after the temp-directory move otherwise) — it never
skips or completes.  Each conjunct fixes the entry shape selecting one
branch and leaves the filesystem arbitrary. -/
theorem download_step_preexistence_checks (root : String) (net : String → String) (fs : FS)
    (v : LoopVars) (files : List FileSpec) (i : Nat) (fsp : FileSpec) (rest : List FileSpec)
    (dp dn u c t : String) (fu sl : Option String) (g z : Bool) :
    (download_step root net files ⟨fu, some dn, some dp, false, some c, sl, g, z⟩ i fs v
      = (fsInsert fs (pjoin dp dn) c,
         [FsAction.makedirs dp, FsAction.writeFile (pjoin dp dn) c],
         .ok ⟨fu <|> v.download_url, some dn, some dp⟩)) ∧
    (download_step root net files ⟨fu, some dn, some dp, false, none, some t, g, z⟩ i fs v
      = if check_file_available fs (pjoin dp dn)
          then (fs, [FsAction.makedirs dp], .error .fileExistsError)
          else (fs, [FsAction.makedirs dp, FsAction.makeSymlink t (pjoin dp dn)],
                .ok ⟨fu <|> v.download_url, some dn, some dp⟩)) ∧
    (download_step root net files ⟨some u, some dn, some dp, false, none, none, true, z⟩ i fs v
      = (fs, [FsAction.makedirs (pjoin dp dn), FsAction.gitClone u (pjoin dp dn)],
         .ok ⟨some u, some dn, some dp⟩)) ∧
    (download_step root net files ⟨some u, some dn, some dp, false, none, none, false, true⟩ i fs v
      = if check_file_available (fsInsert fs (pjoin root (dn ++ ".zip")) (net u)) (dn ++ ".zip")
          then (fsErase (fsInsert fs (pjoin root (dn ++ ".zip")) (net u)) (dn ++ ".zip"),
                [FsAction.makedirs ("uuid4-" ++ toString i),
                 FsAction.makedirs (dirname (pjoin root (dn ++ ".zip"))),
                 FsAction.downloadFile u (pjoin root (dn ++ ".zip")),
                 FsAction.extractZip (dn ++ ".zip") ("uuid4-" ++ toString i),
                 FsAction.moveTree ("uuid4-" ++ toString i) dp,
                 FsAction.removeFile (dn ++ ".zip")],
                .error .fileNotFoundError)
          else (fsInsert fs (pjoin root (dn ++ ".zip")) (net u),
                [FsAction.makedirs ("uuid4-" ++ toString i),
                 FsAction.makedirs (dirname (pjoin root (dn ++ ".zip"))),
                 FsAction.downloadFile u (pjoin root (dn ++ ".zip"))],
                .error .fileNotFoundError)) ∧
    (download_step root net (fsp :: rest) ⟨some u, none, none, false, none, none, false, false⟩ 0 fs v
      = if check_file_available fs fsp.path
          then (fs, [], .ok ⟨some u, v.download_name, v.download_path⟩)
          else (fsInsert fs fsp.path (net u),
                [FsAction.makedirs (dirname fsp.path), FsAction.downloadFile u fsp.path],
                .ok ⟨some u, v.download_name, v.download_path⟩)) := by
  refine ⟨rfl, ?_, rfl, ?_, ?_⟩
  · by_cases hc : check_file_available fs (pjoin dp dn)
    · simp [download_step, need, hc]
    · simp [download_step, need, hc]
  · rcases hl : fsLookup (fsInsert fs (pjoin root (dn ++ ".zip")) (net u)) (dn ++ ".zip") with _ | c2
    · simp [download_step, download_file, need, check_file_available, hl]
    · simp [download_step, download_file, need, check_file_available, hl]
  · by_cases hc : check_file_available fs fsp.path
    · simp [download_step, download_file, need, hc]
    · simp [download_step, download_file, need, hc]

/-- C8: with cuda available and at least one device, the enumeration
returns the device list sorted descending by capability score together
with the recommended list holding exactly the devices whose score is
maximal in the list (all ties recommended). -/
theorem get_cuda_devices_ranking (devs : List RawDevice) (hne : devs ≠ []) :
    ∃ l rl, get_cuda_devices true devs = .ok (some l, some rl) ∧
      List.Sorted smDesc l ∧
      l.Perm (cuda_arch_of devs) ∧
      ∀ d, d ∈ rl ↔ d ∈ l ∧ ∀ d2 ∈ l, d2.sm ≤ d.sm := by
  have harch : cuda_arch_of devs ≠ [] := by
    cases devs with
    | nil => exact absurd rfl hne
    | cons a as => simp [cuda_arch_of]
  rcases he : List.insertionSort smDesc (cuda_arch_of devs) with _ | ⟨h0, t⟩
  · exfalso
    have hp := List.perm_insertionSort smDesc (cuda_arch_of devs)
    rw [he] at hp
    exact harch hp.symm.eq_nil
  · have hsorted : List.Sorted smDesc (h0 :: t) := by
      rw [← he]
      exact List.sorted_insertionSort smDesc (cuda_arch_of devs)
    have hperm : (h0 :: t).Perm (cuda_arch_of devs) := by
      rw [← he]
      exact List.perm_insertionSort smDesc (cuda_arch_of devs)
    have hmax : ∀ d2 ∈ h0 :: t, d2.sm ≤ h0.sm := by
      intro d2 hd2
      rcases List.mem_cons.mp hd2 with h1 | h2
      · exact le_of_eq (congrArg CudaDevice.sm h1)
      · exact List.rel_of_sorted_cons hsorted d2 h2
    refine ⟨h0 :: t, (h0 :: t).filter fun d => d.sm == h0.sm, ?_, hsorted, hperm, ?_⟩
    · simp [get_cuda_devices, he]
    · intro d
      constructor
      · intro hd
        obtain ⟨hmem, heq⟩ := List.mem_filter.mp hd
        have heq2 : d.sm = h0.sm := by simpa using heq
        exact ⟨hmem, fun d2 hd2 => heq2 ▸ hmax d2 hd2⟩
      · rintro ⟨hmem, hall⟩
        apply List.mem_filter.mpr
        refine ⟨hmem, ?_⟩
        have h1 : d.sm ≤ h0.sm := hmax d hmem
        have h2 : h0.sm ≤ d.sm := hall h0 (List.mem_cons_self h0 t)
        simp [Nat.le_antisymm h1 h2]

/-- Witness for C8 on the device ranking example of the specification:
capability scores 75, 86, 86, 61. -/
theorem get_cuda_devices_ranking_witness :
    ([("a", 7, 5), ("b", 8, 6), ("c", 8, 6), ("d", 6, 1)] : List RawDevice) ≠ [] ∧
    (∃ l rl, get_cuda_devices true [("a", 7, 5), ("b", 8, 6), ("c", 8, 6), ("d", 6, 1)]
        = .ok (some l, some rl) ∧
      List.Sorted smDesc l ∧
      l.Perm (cuda_arch_of [("a", 7, 5), ("b", 8, 6), ("c", 8, 6), ("d", 6, 1)]) ∧
      ∀ d, d ∈ rl ↔ d ∈ l ∧ ∀ d2 ∈ l, d2.sm ≤ d.sm) :=
  ⟨by decide, get_cuda_devices_ranking [("a", 7, 5), ("b", 8, 6), ("c", 8, 6), ("d", 6, 1)]
    (by decide)⟩
